import Mathlib

/-!
Verification of the Antora EN/SR documentation synchronization scripts.

Shallow embedding of:
* `scripts/analyze-changes.mjs`   — the diff classifier (DiffClassifier),
* `sync-structure.mjs`            — the structural aligner (StructuralAligner),
* `scripts/sync-code-blocks.mjs`  — the literal block copier (LiteralBlockCopier),
* `validate-translation.mjs`      — the structural validator (StructuralValidator),
* the pre-commit hook's EN-primary TEXT_AND_STRUCTURE branch (SyncOrchestrator).

Documents and diffs are modelled as `List String` (the scripts split file and
diff contents on `'\n'` before doing anything else).  JavaScript string
operations are modelled over `String.data : List Char`:
`trimS` models `String.prototype.trim`, `startsWithS` models `startsWith`,
and the regular expressions used by the scripts are translated into explicit
`takeWhile`/`dropWhile` parsers, including their backtracking behaviour.
-/

namespace AntoraSync

/-- Whitespace predicate modelling the JS `\s` class / `trim` family for the
character set these documents use. -/
def isWs (c : Char) : Bool := c.isWhitespace

/-- Model of `\p{L}` (an alphabetic character in any script) restricted to the
scripts this repository processes: ASCII letters, Latin letters with
diacritics (Latin-1 supplement and Latin Extended A/B, e.g. š ć č đ ž),
and Cyrillic. -/
def isLetterChar (c : Char) : Bool :=
  c.isAlpha
    || (0xC0 ≤ c.toNat && c.toNat ≤ 0x24F && c.toNat ≠ 0xD7 && c.toNat ≠ 0xF7)
    || (0x400 ≤ c.toNat && c.toNat ≤ 0x4FF)

/-- `trimStart` on a character list. -/
def trimStartL (cs : List Char) : List Char := cs.dropWhile isWs

/-- `trimEnd` on a character list. -/
def trimEndL (cs : List Char) : List Char := (cs.reverse.dropWhile isWs).reverse

/-- Model of `String.prototype.trim`. -/
def trimS (s : String) : String := ⟨trimEndL (trimStartL s.data)⟩

/-- Model of `String.prototype.startsWith`. -/
def startsWithS (s p : String) : Bool := p.data.isPrefixOf s.data

/-- Model of `Array.prototype.join('\n')`. -/
def joinNL (l : List String) : String := String.intercalate "\n" l

/-- Numeric value of a digit run, modelling `parseInt(digits, 10)`. -/
def natOfDigits (ds : List Char) : Nat :=
  ds.foldl (fun n c => n * 10 + (c.toNat - '0'.toNat)) 0

/-! ## analyze-changes.mjs -/

/-- The classifier's verdict taxonomy (the `STATUS` object). -/
inductive Status where
  | NO_CHANGES
  | STRUCTURAL_ONLY
  | CODE_ONLY
  | TEXT_AND_STRUCTURE
  deriving DecidableEq, Repr

/-- One record of `getChangedLineNumbers`: in the source,
`{type:'removed', oldLine, newLine:null}` or `{type:'added', oldLine:null, newLine}`. -/
inductive ChangeRec where
  | removed (oldLine : Nat)
  | added (newLine : Nat)
  deriving DecidableEq, Repr

/-- `const lineNo = ch.newLine || ch.oldLine; if (!lineNo) continue;` —
JS `||` treats both `null` and `0` as falsy, so an added record `{newLine: n}`
yields `n` unless `n = 0`, and a removed record `{oldLine: n}` yields `n`
unless `n = 0`; a falsy result makes the loop skip the record. -/
def effLine : ChangeRec → Option Nat
  | .removed n => if n = 0 then none else some n
  | .added n => if n = 0 then none else some n

/-- Parser for the hunk-header regex `^@@ -(\d+),?\d* \+(\d+),?\d* @@`
(returning the two captured numbers). -/
def parseHunk (l : String) : Option (Nat × Nat) :=
  match l.data with
  | '@' :: '@' :: ' ' :: '-' :: rest =>
    let d1 := rest.takeWhile Char.isDigit
    if d1.isEmpty then none
    else
      let r1 := rest.dropWhile Char.isDigit
      let r2 := match r1 with
        | ',' :: t => t.dropWhile Char.isDigit
        | _ => r1
      match r2 with
      | ' ' :: '+' :: rest2 =>
        let d2 := rest2.takeWhile Char.isDigit
        if d2.isEmpty then none
        else
          let r3 := rest2.dropWhile Char.isDigit
          let r4 := match r3 with
            | ',' :: t => t.dropWhile Char.isDigit
            | _ => r3
          match r4 with
          | ' ' :: '@' :: '@' :: _ => some (natOfDigits d1, natOfDigits d2)
          | _ => none
      | _ => none
  | _ => none

/-- Loop body of `getChangedLineNumbers`, carrying the `oldLine`/`newLine`
counters.  A hunk header resets the counters; `+++`/`---` header lines are
skipped; a context line (leading space) advances both counters; a removed line
records `oldLine`, an added line records `newLine`. -/
def gclnAux (o n : Nat) : List String → List ChangeRec
  | [] => []
  | l :: ls =>
    match parseHunk l with
    | some (ho, hn) => gclnAux ho hn ls
    | none =>
      if startsWithS l "+++" || startsWithS l "---" then gclnAux o n ls
      else if startsWithS l " " then gclnAux (o + 1) (n + 1) ls
      else if startsWithS l "-" then .removed o :: gclnAux (o + 1) n ls
      else if startsWithS l "+" then .added n :: gclnAux o (n + 1) ls
      else gclnAux o n ls

/-- `getChangedLineNumbers` from analyze-changes.mjs (the counters start at 0). -/
def getChangedLineNumbers (diffLines : List String) : List ChangeRec :=
  gclnAux 0 0 diffLines

/-- Predicate for a diff line kept as "removed" by `extractRemovedAdded`:
not a `---`/`+++`/`@@` header line, and starting with `-`. -/
def keepRemoved (l : String) : Bool :=
  !(startsWithS l "---" || startsWithS l "+++" || startsWithS l "@@")
    && startsWithS l "-"

/-- Predicate for a diff line kept as "added": not a header line, not starting
with `-` (the source checks `-` first in its `else if` chain), and starting
with `+`. -/
def keepAdded (l : String) : Bool :=
  !(startsWithS l "---" || startsWithS l "+++" || startsWithS l "@@")
    && !(startsWithS l "-") && startsWithS l "+"

/-- The `removed` list of `extractRemovedAdded` (the source's single loop is
equivalent to two filters, since each line lands in at most one bucket). -/
def extractRemoved (diffLines : List String) : List String :=
  diffLines.filter keepRemoved

/-- The `added` list of `extractRemovedAdded`. -/
def extractAdded (diffLines : List String) : List String :=
  diffLines.filter keepAdded

/-- Strip one leading `+` or `-`, modelling `line.replace(/^[-+]/, '')`. -/
def stripDiffMark : List Char → List Char
  | [] => []
  | c :: cs => if c = '-' || c = '+' then cs else c :: cs

/-- `line.startsWith(':') || line.startsWith('//') || line.startsWith('[')` —
attribute, comment and block-attribute lines are skipped whole. -/
def isSkippedLine : List Char → Bool
  | ':' :: _ => true
  | '[' :: _ => true
  | '/' :: '/' :: _ => true
  | _ => false

/-- Test of the heading regex `/^=+\s+/`: one or more `=`, then whitespace. -/
def headingPrefixTest (cs : List Char) : Bool :=
  !(cs.takeWhile (fun c => c = '=')).isEmpty
    && (match cs.dropWhile (fun c => c = '=') with
        | c :: _ => isWs c
        | [] => false)

/-- The character class `[=*.+0-9#-]` of the list-marker regex. -/
def isMarkerChar (c : Char) : Bool :=
  c = '=' || c = '*' || c = '.' || c = '+' || c.isDigit || c = '#' || c = '-'

/-- The structural-prefix stripping applied to one (already left-trimmed)
line: a heading prefix (`/^=+\s+/`) is removed, or otherwise a leading
list-marker run (`/^([=*.+0-9#-]+\s*)/`, greedy class run then greedy
whitespace); the result is right-trimmed. -/
def strippedLine (cs : List Char) : List Char :=
  if headingPrefixTest cs then
    trimEndL ((cs.dropWhile (fun c => c = '=')).dropWhile isWs)
  else if (match cs with | c :: _ => isMarkerChar c | [] => false) then
    trimEndL ((cs.dropWhile isMarkerChar).dropWhile isWs)
  else trimEndL cs

/-- Per-line step of `normalizeLines`: strip the diff mark and leading
whitespace; drop attribute/comment/block-attribute lines; strip the
structural prefix; keep the line only if a letter remains (`/\p{L}/u`). -/
def normLine (l : String) : Option String :=
  let cs := trimStartL (stripDiffMark l.data)
  if isSkippedLine cs then none
  else if (strippedLine cs).any isLetterChar then some ⟨strippedLine cs⟩
  else none

/-- De-duplication keeping first occurrences, modelling
`Array.from(new Set(xs))`. -/
def dedupFirst (seen : List String) : List String → List String
  | [] => []
  | x :: xs =>
    if seen.contains x then dedupFirst seen xs
    else x :: dedupFirst (x :: seen) xs

/-- Deterministic total order on strings (codepoint-lexicographic), modelling
the deterministic comparator `(a, b) => a.localeCompare(b, 'en')`.  The exact
collation order is irrelevant to the classifier's verdicts: both normalized
sets are sorted with the same comparator, and equal sets sort equally. -/
def lexLe : List Char → List Char → Bool
  | [], _ => true
  | _ :: _, [] => false
  | a :: as, b :: bs =>
    if a.toNat < b.toNat then true
    else if b.toNat < a.toNat then false
    else lexLe as bs

/-- String comparison used by the sort. -/
def strLe (a b : String) : Bool := lexLe a.data b.data

/-- Insertion into a sorted list. -/
def insertSorted (x : String) : List String → List String
  | [] => [x]
  | y :: ys => if strLe x y then x :: y :: ys else y :: insertSorted x ys

/-- Sort, modelling `unique.sort(...)`. -/
def sortStrings (l : List String) : List String := l.foldr insertSorted []

/-- `normalizeLines` from analyze-changes.mjs: per-line normalization, then
de-duplicate, then sort. -/
def normalizeLines (lines : List String) : List String :=
  sortStrings (dedupFirst [] (lines.filterMap normLine))

/-- Loop of `isLineInCodeBlock`: `cur` is the 1-based current line number.
A `----` line toggles the source-block state and a `....` line toggles the
literal-block state, each with `continue` (so a delimiter line itself is never
the returned position); the queried line answers `inSourceBlock || inLiteralDots`.
(The `[source,...]` look-ahead in the source has an empty body and no effect.)  -/
def inCodeAux (inSrc inLit : Bool) (cur target : Nat) : List String → Bool
  | [] => false
  | l :: ls =>
    if trimS l = "----" then inCodeAux (!inSrc) inLit (cur + 1) target ls
    else if trimS l = "...." then inCodeAux inSrc (!inLit) (cur + 1) target ls
    else if cur = target then inSrc || inLit
    else inCodeAux inSrc inLit (cur + 1) target ls

/-- `isLineInCodeBlock(fileLines, lineNumber)` with `lineNumber` 1-based. -/
def isLineInCodeBlock (fileLines : List String) (lineNumber : Nat) : Bool :=
  inCodeAux false false 1 lineNumber fileLines

/-- Whether a change record counts towards `anyCode` (a record with a truthy
line number whose position is inside a code/literal block of the staged file). -/
def recInCode (fileLines : List String) (ch : ChangeRec) : Bool :=
  match effLine ch with
  | some n => isLineInCodeBlock fileLines n
  | none => false

/-- Whether a change record counts towards `anyNonCode`. -/
def recNonCode (fileLines : List String) (ch : ChangeRec) : Bool :=
  match effLine ch with
  | some n => !isLineInCodeBlock fileLines n
  | none => false

/-- The code-only short-circuit condition
`skipCodeOnly && anyCode && !anyNonCode`. -/
def codeOnlyCheck (skipCodeOnly : Bool) (fileLines diffLines : List String) : Bool :=
  skipCodeOnly
    && (getChangedLineNumbers diffLines).any (recInCode fileLines)
    && !((getChangedLineNumbers diffLines).any (recNonCode fileLines))

/-- The fail-safe condition of step 3: a raw diff exists but normalization
stripped both sides to nothing. -/
def failSafeCond (diffLines : List String) : Prop :=
  (extractRemoved diffLines ≠ [] ∨ extractAdded diffLines ≠ [])
    ∧ normalizeLines (extractRemoved diffLines) = []
    ∧ normalizeLines (extractAdded diffLines) = []

instance (diffLines : List String) : Decidable (failSafeCond diffLines) := by
  unfold failSafeCond; infer_instance

/-- `main` of analyze-changes.mjs as a function of the configuration flag
`features.skipCodeOnlyChanges`, the staged file lines, and the diff lines:
empty (all-whitespace) diff → NO_CHANGES; code-only short-circuit → CODE_ONLY;
fail-safe → TEXT_AND_STRUCTURE; both normalized sets empty → NO_CHANGES;
equal sorted-joined sets → STRUCTURAL_ONLY; otherwise TEXT_AND_STRUCTURE. -/
def analyzeStatus (skipCodeOnly : Bool) (fileLines diffLines : List String) : Status :=
  if diffLines.all (fun l => trimS l = "") then .NO_CHANGES
  else if codeOnlyCheck skipCodeOnly fileLines diffLines then .CODE_ONLY
  else if failSafeCond diffLines then .TEXT_AND_STRUCTURE
  else if normalizeLines (extractRemoved diffLines) = []
          ∧ normalizeLines (extractAdded diffLines) = [] then .NO_CHANGES
  else if joinNL (normalizeLines (extractRemoved diffLines))
          = joinNL (normalizeLines (extractAdded diffLines)) then .STRUCTURAL_ONLY
  else .TEXT_AND_STRUCTURE

/-! ## sync-structure.mjs (StructuralAligner) -/

/-- The four capture groups of the line matchers
`^(\s*)(=+)(\s+)(.+)$` and `^(\s*)([*.+0-9#-]+)(\s+)(.+)$`. -/
structure LineParts where
  indent : List Char
  marks : List Char
  space : List Char
  text : List Char
  deriving DecidableEq, Repr

/-- Shared matcher for `^(\s*)(RUN)(\s+)(.+)$` where `RUN` is a nonempty run of
characters satisfying `p`: leading whitespace, the marker run, then `\s+`
followed by `.+` — with the regex backtracking that, when everything after the
run is whitespace, gives the last whitespace character back to `(.+)`. -/
def matchRun (p : Char → Bool) (s : String) : Option LineParts :=
  let indent := s.data.takeWhile isWs
  let r1 := s.data.dropWhile isWs
  let marks := r1.takeWhile p
  let r2 := r1.dropWhile p
  if marks.isEmpty then none
  else
    let sp := r2.takeWhile isWs
    let text := r2.dropWhile isWs
    if sp.isEmpty then none
    else if !text.isEmpty then some ⟨indent, marks, sp, text⟩
    else if 2 ≤ sp.length then some ⟨indent, marks, sp.dropLast, [sp.getLastD ' ']⟩
    else none

/-- Heading matcher `^(\s*)(=+)(\s+)(.+)$`, used identically by
sync-structure.mjs and validate-translation.mjs (`matchHeading`). -/
def matchHeading (s : String) : Option LineParts :=
  matchRun (fun c => c = '=') s

/-- List-item matcher `^(\s*)([*.+0-9#-]+)(\s+)(.+)$` of sync-structure.mjs
(the class has no `=`). -/
def isListChar (c : Char) : Bool :=
  c = '*' || c = '.' || c = '+' || c.isDigit || c = '#' || c = '-'

/-- The list matcher of sync-structure.mjs. -/
def matchList (s : String) : Option LineParts :=
  matchRun isListChar s

/-- Per-line step of sync-structure.mjs: if both lines are headings, keep the
secondary's indent, whitespace and text but take the primary's `=` run; else if
both are list items, take the primary's marker run; otherwise leave the
secondary line untouched. -/
def syncStructLine (e s : String) : String :=
  match matchHeading e, matchHeading s with
  | some he, some hs => ⟨hs.indent ++ he.marks ++ hs.space ++ hs.text⟩
  | _, _ =>
    match matchList e, matchList s with
    | some le, some ls => ⟨ls.indent ++ le.marks ++ ls.space ++ ls.text⟩
    | _, _ => s

/-- `main` of sync-structure.mjs: walk both documents up to the shorter
length, rewriting secondary lines in place; the secondary's tail beyond the
primary's length is untouched. -/
def syncStructure : List String → List String → List String
  | e :: es, s :: ss => syncStructLine e s :: syncStructure es ss
  | [], ss => ss
  | _ :: _, [] => []

/-! ## sync-code-blocks.mjs (LiteralBlockCopier) -/

/-- One document's delimited-region state `(inSourceBlock, inLiteralBlock)`
updated by one line: a trimmed `----` line toggles the source flag, a trimmed
`....` line toggles the literal flag. -/
def stepRegion (p : Bool × Bool) (l : String) : Bool × Bool :=
  ((if trimS l = "----" then !p.1 else p.1),
   (if trimS l = "...." then !p.2 else p.2))

/-- Loop of sync-code-blocks.mjs: at each index both documents' states are
first toggled by their own lines, then, if both are inside a region of either
kind, the primary line overwrites the secondary line. -/
def syncCodeAux (pe ps : Bool × Bool) : List String → List String → List String
  | e :: es, s :: ss =>
    let pe2 := stepRegion pe e
    let ps2 := stepRegion ps s
    (if (pe2.1 || pe2.2) && (ps2.1 || ps2.2) then e else s)
      :: syncCodeAux pe2 ps2 es ss
  | [], ss => ss
  | _ :: _, [] => []

/-- `main` of sync-code-blocks.mjs (all region flags start `false`). -/
def syncCodeBlocks (en sr : List String) : List String :=
  syncCodeAux (false, false) (false, false) en sr

/-- Region state of one document after the line at index `i` has been
processed (the state the copier consults at index `i`). -/
def inRegionAfter (lines : List String) (i : Nat) : Bool :=
  let q := (lines.take (i + 1)).foldl stepRegion (false, false)
  q.1 || q.2

/-! ## validate-translation.mjs (StructuralValidator) -/

/-- Kind of a delimited block: `----` (source) or `....` (literal). -/
inductive BlockKind where
  | source
  | literal
  deriving DecidableEq, Repr

/-- One collected block `{type, start, end}`.  The source's interleaved
open/close handling can push `null` for `type`/`start`, hence the `Option`s;
`stop` is the source's `end` field (a Lean keyword). -/
structure CodeBlock where
  kind : Option BlockKind
  start : Option Nat
  stop : Nat
  deriving DecidableEq, Repr

/-- Loop of `collectCodeBlocks`: `----` toggles the source flag, `....`
toggles the literal flag; opening records `currentType`/`start` (shared
between the two kinds, exactly as in the source), closing pushes a block and
resets them. -/
def collectAux (i : Nat) (inSource inLiteral : Bool)
    (currentType : Option BlockKind) (start : Option Nat) :
    List String → List CodeBlock
  | [] => []
  | l :: ls =>
    if trimS l = "...." then
      if !inLiteral then collectAux (i + 1) inSource true (some .literal) (some i) ls
      else ⟨currentType, start, i⟩ :: collectAux (i + 1) inSource false none none ls
    else if trimS l = "----" then
      if !inSource then collectAux (i + 1) true inLiteral (some .source) (some i) ls
      else ⟨currentType, start, i⟩ :: collectAux (i + 1) false inLiteral none none ls
    else collectAux (i + 1) inSource inLiteral currentType start ls

/-- `collectCodeBlocks` from validate-translation.mjs. -/
def collectCodeBlocks (lines : List String) : List CodeBlock :=
  collectAux 0 false false none none lines

/-- `lines.slice(start, end + 1)` for a collected block (JS `slice` treats a
`null` start as 0). -/
def sliceBlock (lines : List String) (b : CodeBlock) : List String :=
  (lines.drop (b.start.getD 0)).take (b.stop + 1 - b.start.getD 0)

/-- `extractAttributeName`: the regex `^:([^:]+):` — a line starting with `:`,
a nonempty run of non-`:` characters, then `:`; the captured name is trimmed. -/
def extractAttributeName (s : String) : Option String :=
  match s.data with
  | ':' :: rest =>
    let name := rest.takeWhile (fun c => c ≠ ':')
    if name.isEmpty then none
    else
      match rest.dropWhile (fun c => c ≠ ':') with
      | ':' :: _ => some (trimS ⟨name⟩)
      | _ => none
  | _ => none

/-- Scanner for non-overlapping substring occurrences: after a match the next
`pat.length - 1` characters are skipped (the match consumed `pat.length`
characters in the JS global-regex scan). -/
def countSubstrAux (pat : List Char) (skip : Nat) : List Char → Nat
  | [] => 0
  | c :: cs =>
    match skip with
    | k + 1 => countSubstrAux pat k cs
    | 0 =>
      if pat.isPrefixOf (c :: cs) then 1 + countSubstrAux pat (pat.length - 1) cs
      else countSubstrAux pat 0 cs

/-- `countMatches(text, pattern)` for the literal macro patterns: the number
of successive non-overlapping occurrences of the pattern substring. -/
def countSubstr (pat text : List Char) : Nat :=
  if pat.isEmpty then 0 else countSubstrAux pat 0 text

/-- The validation report: one entry per `console.error` that sets `hasError`
(the numbers stored are the 1-based ones the script prints). -/
inductive VError where
  | headingMarksMismatch (line : Nat)
  | headingOnlyEn (line : Nat)
  | headingOnlySr (line : Nat)
  | blockCountMismatch (enCount srCount : Nat)
  | blockTypeMismatch (blockNo : Nat)
  | blockLenMismatch (blockNo : Nat)
  | blockContentMismatch (blockNo relLine : Nat)
  | mcCountMismatch (name : String)
  | attrOnlyEn (names : List String)
  | attrOnlySr (names : List String)
  deriving DecidableEq, Repr

/-- Check 1 (heading markers), walking both documents up to the shorter
length; `i` is the 0-based index, errors carry the printed `i + 1`. -/
def headingErrs (i : Nat) : List String → List String → List VError
  | e :: es, s :: ss =>
    (match matchHeading e, matchHeading s with
     | some he, some hs =>
       if he.marks ≠ hs.marks then [.headingMarksMismatch (i + 1)] else []
     | some _, none => [.headingOnlyEn (i + 1)]
     | none, some _ => [.headingOnlySr (i + 1)]
     | none, none => []) ++ headingErrs (i + 1) es ss
  | _, _ => []

/-- Block-content comparison with the source's `break`: only the first
differing relative line of a block pair is reported (`j` is the printed
1-based relative line number). -/
def firstMismatchErr (blockNo j : Nat) : List String → List String → List VError
  | a :: as, b :: bs =>
    if a ≠ b then [.blockContentMismatch blockNo j]
    else firstMismatchErr blockNo (j + 1) as bs
  | _, _ => []

/-- Per-pair part of check 2: type mismatch or line-count mismatch skips the
content comparison for that pair (`continue`), other pairs still run. -/
def blockPairErrs (enLines srLines : List String) (blockNo : Nat) :
    List (CodeBlock × CodeBlock) → List VError
  | [] => []
  | (eb, sb) :: rest =>
    (if eb.kind ≠ sb.kind then [.blockTypeMismatch blockNo]
     else if (sliceBlock enLines eb).length ≠ (sliceBlock srLines sb).length then
       [.blockLenMismatch blockNo]
     else firstMismatchErr blockNo 1 (sliceBlock enLines eb) (sliceBlock srLines sb))
      ++ blockPairErrs enLines srLines (blockNo + 1) rest

/-- Check 2 (code/literal blocks): unequal block counts short-circuit the
pairwise comparison. -/
def blockErrs (enLines srLines : List String) : List VError :=
  if (collectCodeBlocks enLines).length ≠ (collectCodeBlocks srLines).length then
    [.blockCountMismatch (collectCodeBlocks enLines).length (collectCodeBlocks srLines).length]
  else blockPairErrs enLines srLines 1
    ((collectCodeBlocks enLines).zip (collectCodeBlocks srLines))

/-- Check 3 (xref/include/image macro counts) over the whole document
contents. -/
def mcErrs (enContent srContent : String) : List VError :=
  (if countSubstr "xref:".data enContent.data ≠ countSubstr "xref:".data srContent.data
   then [.mcCountMismatch "xref"] else [])
    ++ (if countSubstr "include::".data enContent.data ≠ countSubstr "include::".data srContent.data
        then [.mcCountMismatch "include"] else [])
    ++ (if countSubstr "image::".data enContent.data ≠ countSubstr "image::".data srContent.data
        then [.mcCountMismatch "image"] else [])

/-- The set of attribute names of a document, in first-occurrence order
(modelling the JS `Set` insertion order). -/
def attrNames (lines : List String) : List String :=
  dedupFirst [] (lines.filterMap extractAttributeName)

/-- Check 4 (attribute names present on only one side). -/
def attrErrs (enLines srLines : List String) : List VError :=
  (if (attrNames enLines).filter (fun n => !(attrNames srLines).contains n) ≠ []
   then [.attrOnlyEn ((attrNames enLines).filter (fun n => !(attrNames srLines).contains n))]
   else [])
    ++ (if (attrNames srLines).filter (fun n => !(attrNames enLines).contains n) ≠ []
        then [.attrOnlySr ((attrNames srLines).filter (fun n => !(attrNames enLines).contains n))]
        else [])

/-- `main` of validate-translation.mjs: the four checks run unconditionally
and all of their errors are collected; the script fails iff the report is
nonempty. -/
def validateTranslation (enLines srLines : List String) : List VError :=
  headingErrs 0 enLines srLines
    ++ blockErrs enLines srLines
    ++ mcErrs (joinNL enLines) (joinNL srLines)
    ++ attrErrs enLines srLines

/-! ## Pre-commit orchestrator: the EN-primary TEXT_AND_STRUCTURE branch -/

/-- Instruction mode of a `translate-adoc.mjs` invocation: default, or
`--safe` (the stricter "preserve structure" profile). -/
inductive TranslateMode where
  | normal
  | safe
  deriving DecidableEq, Repr

/-- `TRANSLATION_MODE` of the hook. -/
inductive OrchestratorMode where
  | normal
  | strict
  deriving DecidableEq, Repr

/-- Outcome of the TEXT_AND_STRUCTURE branch for one document: the sequence
of translation invocations actually performed, the `process.exit` code if the
branch aborted the run, and whether `SAFE_FALLBACK_COUNT` was incremented. -/
structure FlowResult where
  attempts : List TranslateMode
  exitCode : Option Nat
  safeFallback : Bool
  deriving DecidableEq, Repr

/-- The hook's TEXT_AND_STRUCTURE branch.  `v1` is the exit status of
`validate-translation.mjs` after the first translation, `v2` after the second
(only consulted when a second translation happens).  In strict mode a single
safe-mode translation is validated once and a failure exits with code 1.  In
normal mode: translate normally, validate; on failure translate once more with
`--safe`, validate; a second failure exits with code 1 (before the fallback
counter is incremented). -/
def textAndStructureFlow (mode : OrchestratorMode) (v1 v2 : Nat) : FlowResult :=
  match mode with
  | .strict =>
    if v1 = 0 then ⟨[.safe], none, false⟩
    else ⟨[.safe], some 1, false⟩
  | .normal =>
    if v1 = 0 then ⟨[.normal], none, false⟩
    else if v2 = 0 then ⟨[.normal, .safe], none, true⟩
    else ⟨[.normal, .safe], some 1, false⟩

/-! ## Basic lemmas -/

theorem string_mk_data (s : String) : (⟨s.data⟩ : String) = s := rfl

theorem dropLast_append_getLastD :
    ∀ (l : List Char), l ≠ [] → ∀ (d : Char), l.dropLast ++ [l.getLastD d] = l := by
  intro l
  induction l with
  | nil => intro h; exact absurd rfl h
  | cons x xs ih =>
    intro _ d
    cases xs with
    | nil => rfl
    | cons y ys =>
      have h := ih (by simp) x
      simp only [List.dropLast_cons₂, List.cons_append]
      rw [List.getLastD_cons]
      exact congrArg (x :: ·) h

/-- The four capture groups of a successful `matchRun` concatenate back to the
whole line. -/
theorem matchRun_recon (p : Char → Bool) (s : String) (h : LineParts)
    (hm : matchRun p s = some h) :
    h.indent ++ h.marks ++ h.space ++ h.text = s.data := by
  unfold matchRun at hm
  simp only at hm
  split at hm
  · exact absurd hm (by simp)
  next hmarks =>
    split at hm
    · exact absurd hm (by simp)
    next hsp =>
      have hsp' : ((s.data.dropWhile isWs).dropWhile p).takeWhile isWs ≠ [] := by
        simpa [List.isEmpty_iff] using hsp
      split at hm
      next htext =>
        have := Option.some.inj hm
        subst this
        simp only [List.append_assoc]
        rw [List.takeWhile_append_dropWhile, List.takeWhile_append_dropWhile,
          List.takeWhile_append_dropWhile]
      next htext =>
        have htext' : ((s.data.dropWhile isWs).dropWhile p).dropWhile isWs = [] := by
          simpa [List.isEmpty_iff] using htext
        split at hm
        next hlen =>
          have := Option.some.inj hm
          subst this
          simp only [List.append_assoc]
          rw [dropLast_append_getLastD _ hsp' ' ']
          rw [show ((s.data.dropWhile isWs).dropWhile p).takeWhile isWs
              = (s.data.dropWhile isWs).dropWhile p from by
            conv_rhs => rw [← List.takeWhile_append_dropWhile (p := isWs)
              (l := (s.data.dropWhile isWs).dropWhile p)]
            rw [htext', List.append_nil]]
          rw [List.takeWhile_append_dropWhile, List.takeWhile_append_dropWhile]
        · exact absurd hm (by simp)

/-- A per-line self-alignment is the identity. -/
theorem syncStructLine_self (e : String) : syncStructLine e e = e := by
  unfold syncStructLine
  cases hh : matchHeading e with
  | some h =>
    have := matchRun_recon _ _ _ hh
    simp only [← List.append_assoc] at this ⊢
    rw [this, string_mk_data]
  | none =>
    cases hl : matchList e with
    | some m =>
      have := matchRun_recon _ _ _ hl
      simp only [← List.append_assoc] at this ⊢
      rw [this, string_mk_data]
    | none => simp

/-- C9 (claim): for every document `D`, running the StructuralAligner with `D`
as both primary and secondary leaves the document unchanged, byte for byte. -/
theorem C9_aligner_self_noop (d : List String) : syncStructure d d = d := by
  induction d with
  | nil => rfl
  | cons x xs ih =>
    show syncStructLine x x :: syncStructure xs xs = x :: xs
    rw [syncStructLine_self, ih]

theorem syncStructure_length : ∀ (en sr : List String),
    (syncStructure en sr).length = sr.length := by
  intro en
  induction en with
  | nil => intro sr; rfl
  | cons e es ih =>
    intro sr
    cases sr with
    | nil => rfl
    | cons s ss =>
      show (syncStructLine e s :: syncStructure es ss).length = (s :: ss).length
      simp [ih ss]

theorem syncCodeAux_length : ∀ (en : List String) (pe ps : Bool × Bool)
    (sr : List String), (syncCodeAux pe ps en sr).length = sr.length := by
  intro en
  induction en with
  | nil => intro pe ps sr; rfl
  | cons e es ih =>
    intro pe ps sr
    cases sr with
    | nil => rfl
    | cons s ss =>
      show (_ :: syncCodeAux _ _ es ss).length = (s :: ss).length
      simp [ih _ _ ss]

theorem syncStructure_drop : ∀ (en sr : List String),
    (syncStructure en sr).drop (min en.length sr.length)
      = sr.drop (min en.length sr.length) := by
  intro en
  induction en with
  | nil => intro sr; simp [syncStructure]
  | cons e es ih =>
    intro sr
    cases sr with
    | nil => simp [syncStructure]
    | cons s ss =>
      show (syncStructLine e s :: syncStructure es ss).drop
          (min (e :: es).length (s :: ss).length)
        = (s :: ss).drop (min (e :: es).length (s :: ss).length)
      simp only [List.length_cons, Nat.succ_min_succ, List.drop_succ_cons]
      exact ih ss

theorem syncCodeAux_drop : ∀ (en : List String) (pe ps : Bool × Bool)
    (sr : List String),
    (syncCodeAux pe ps en sr).drop (min en.length sr.length)
      = sr.drop (min en.length sr.length) := by
  intro en
  induction en with
  | nil => intro pe ps sr; simp [syncCodeAux]
  | cons e es ih =>
    intro pe ps sr
    cases sr with
    | nil => simp [syncCodeAux]
    | cons s ss =>
      show (_ :: syncCodeAux (stepRegion pe e) (stepRegion ps s) es ss).drop
          (min (e :: es).length (s :: ss).length)
        = (s :: ss).drop (min (e :: es).length (s :: ss).length)
      simp only [List.length_cons, Nat.succ_min_succ, List.drop_succ_cons]
      exact ih _ _ ss

/-- C10 (claim): both deterministic strategies preserve the secondary
document's line count exactly, and every secondary line at an index at or
beyond `min(primary length, secondary length)` is left unchanged (stated via
`List.drop`). -/
theorem C10_deterministic_strategies_preserve_lines :
    (∀ (en sr : List String), (syncStructure en sr).length = sr.length)
      ∧ (∀ (en sr : List String), (syncCodeBlocks en sr).length = sr.length)
      ∧ (∀ (en sr : List String),
          (syncStructure en sr).drop (min en.length sr.length)
            = sr.drop (min en.length sr.length))
      ∧ (∀ (en sr : List String),
          (syncCodeBlocks en sr).drop (min en.length sr.length)
            = sr.drop (min en.length sr.length)) :=
  ⟨syncStructure_length, fun en sr => syncCodeAux_length en _ _ sr,
    syncStructure_drop, fun en sr => syncCodeAux_drop en _ _ sr⟩

/-- C3 (claim): in the orchestrator's normal mode, the external-translation
path is an explicit two-attempt sequence — translate in normal mode and
validate; on validation failure translate exactly once more in safe mode and
validate again; a second validation failure exits with code 1; no third
attempt ever occurs. -/
theorem C3_two_attempt_escalation (v1 v2 : Nat) :
    ((textAndStructureFlow .normal v1 v2).attempts.take 1 = [.normal])
      ∧ (v1 = 0 → textAndStructureFlow .normal v1 v2
          = ⟨[.normal], none, false⟩)
      ∧ (v1 ≠ 0 → (textAndStructureFlow .normal v1 v2).attempts
            = [.normal, .safe]
          ∧ (v2 = 0 → textAndStructureFlow .normal v1 v2
              = ⟨[.normal, .safe], none, true⟩)
          ∧ (v2 ≠ 0 → textAndStructureFlow .normal v1 v2
              = ⟨[.normal, .safe], some 1, false⟩))
      ∧ (textAndStructureFlow .normal v1 v2).attempts.length ≤ 2 := by
  by_cases h1 : v1 = 0 <;> by_cases h2 : v2 = 0 <;>
    simp [textAndStructureFlow, h1, h2]

/-- Witness for C3 at a concrete input: first validation fails, the safe-mode
retry succeeds. -/
theorem C3_two_attempt_escalation_witness :
    (textAndStructureFlow .normal 1 0).attempts = [.normal, .safe]
      ∧ textAndStructureFlow .normal 1 0 = ⟨[.normal, .safe], none, true⟩ :=
  ⟨((C3_two_attempt_escalation 1 0).2.2.1 (by decide)).1,
    (((C3_two_attempt_escalation 1 0).2.2.1 (by decide)).2.1 rfl)⟩

/-! ## C8: the validator on a self-pair -/

theorem headingErrs_self : ∀ (d : List String) (i : Nat), headingErrs i d d = [] := by
  intro d
  induction d with
  | nil => intro i; rfl
  | cons x xs ih =>
    intro i
    show (match matchHeading x, matchHeading x with
      | some he, some hs =>
        if he.marks ≠ hs.marks then [VError.headingMarksMismatch (i + 1)] else []
      | some _, none => [VError.headingOnlyEn (i + 1)]
      | none, some _ => [VError.headingOnlySr (i + 1)]
      | none, none => []) ++ headingErrs (i + 1) xs xs = []
    rw [ih (i + 1)]
    cases matchHeading x <;> simp

theorem firstMismatchErr_self : ∀ (l : List String) (b j : Nat),
    firstMismatchErr b j l l = [] := by
  intro l
  induction l with
  | nil => intro b j; rfl
  | cons x xs ih =>
    intro b j
    show (if x ≠ x then [VError.blockContentMismatch b j]
      else firstMismatchErr b (j + 1) xs xs) = []
    simp [ih]

theorem blockPairErrs_self : ∀ (bs : List CodeBlock) (d : List String) (n : Nat),
    blockPairErrs d d n (bs.zip bs) = [] := by
  intro bs
  induction bs with
  | nil => intro d n; rfl
  | cons b rest ih =>
    intro d n
    show (if b.kind ≠ b.kind then [VError.blockTypeMismatch n]
      else if (sliceBlock d b).length ≠ (sliceBlock d b).length then
        [VError.blockLenMismatch n]
      else firstMismatchErr n 1 (sliceBlock d b) (sliceBlock d b))
        ++ blockPairErrs d d (n + 1) (rest.zip rest) = []
    rw [ih d (n + 1)]
    simp [firstMismatchErr_self]

theorem blockErrs_self (d : List String) : blockErrs d d = [] := by
  unfold blockErrs
  rw [if_neg (by simp)]
  exact blockPairErrs_self _ d 1

theorem mcErrs_self (c : String) : mcErrs c c = [] := by
  simp [mcErrs]

theorem filter_not_contains_self (l : List String) :
    l.filter (fun n => !l.contains n) = [] := by
  rw [List.filter_eq_nil_iff]
  intro a ha
  simp [ha]

theorem attrErrs_self (d : List String) : attrErrs d d = [] := by
  unfold attrErrs
  rw [filter_not_contains_self]
  simp

/-- C8 (claim): for every document `D`, running the StructuralValidator on the
pair `(D, D)` returns an empty report — self-comparison always passes. -/
theorem C8_validator_self_empty (d : List String) : validateTranslation d d = [] := by
  unfold validateTranslation
  rw [headingErrs_self, blockErrs_self, mcErrs_self, attrErrs_self]
  rfl

/-! ## C5: the literal block copier -/

/-- Region state of one document after the line at index `i`, starting from an
arbitrary state `p` (generalization of `inRegionAfter` for the induction). -/
def inRegionFrom (p : Bool × Bool) (lines : List String) (i : Nat) : Bool :=
  let q := (lines.take (i + 1)).foldl stepRegion p
  q.1 || q.2

theorem inRegionAfter_eq_from (lines : List String) (i : Nat) :
    inRegionAfter lines i = inRegionFrom (false, false) lines i := rfl

theorem syncCodeAux_get? : ∀ (en : List String) (pe ps : Bool × Bool)
    (sr : List String) (i : Nat), i < en.length → i < sr.length →
    (syncCodeAux pe ps en sr)[i]?
      = if inRegionFrom pe en i && inRegionFrom ps sr i then en[i]? else sr[i]? := by
  intro en
  induction en with
  | nil => intro pe ps sr i hi; simp at hi
  | cons e es ih =>
    intro pe ps sr i hi hj
    cases sr with
    | nil => simp at hj
    | cons s ss =>
      cases i with
      | zero =>
        have hcond : (inRegionFrom pe (e :: es) 0 && inRegionFrom ps (s :: ss) 0)
            = (((stepRegion pe e).1 || (stepRegion pe e).2)
                && ((stepRegion ps s).1 || (stepRegion ps s).2)) := rfl
        show ((if ((stepRegion pe e).1 || (stepRegion pe e).2)
              && ((stepRegion ps s).1 || (stepRegion ps s).2) then e else s)
            :: syncCodeAux (stepRegion pe e) (stepRegion ps s) es ss)[0]?
          = if inRegionFrom pe (e :: es) 0 && inRegionFrom ps (s :: ss) 0
            then (e :: es)[0]? else (s :: ss)[0]?
        rw [hcond]
        cases hb : ((stepRegion pe e).1 || (stepRegion pe e).2)
            && ((stepRegion ps s).1 || (stepRegion ps s).2) <;> simp
      | succ i =>
        show (_ :: syncCodeAux (stepRegion pe e) (stepRegion ps s) es ss)[i + 1]? = _
        have h1 : inRegionFrom pe (e :: es) (i + 1)
            = inRegionFrom (stepRegion pe e) es i := by
          simp [inRegionFrom, List.take_succ_cons]
        have h2 : inRegionFrom ps (s :: ss) (i + 1)
            = inRegionFrom (stepRegion ps s) ss i := by
          simp [inRegionFrom, List.take_succ_cons]
        simp only [List.getElem?_cons_succ, h1, h2]
        exact ih _ _ ss i (by simpa using hi) (by simpa using hj)

/-- C5 counterexample: at index 2 both documents' closing delimiters toggle
their region states off *before* the copy check, so the closing delimiter line
is not overwritten — the secondary keeps `"...."` although the primary's line
is `"----"`, contradicting "both opening and closing delimiters of a region
are copied". -/
theorem C5_counterexample :
    syncCodeBlocks ["----", "A", "----"] ["....", "B", "...."]
      = ["----", "A", "...."]
    ∧ (syncCodeBlocks ["----", "A", "----"] ["....", "B", "...."])[2]?
        ≠ some "----" := by
  constructor
  · rfl
  · decide

/-- C5 (amended): at every index below the shorter length, the copier
overwrites the secondary's line with the primary's exactly when both
documents' region states are inside a region of either kind *after* the
current line's own delimiter toggles have been applied; opening delimiter
lines are therefore copied, closing delimiter lines are not. -/
theorem C5_amended_copier_characterization (en sr : List String) (i : Nat)
    (hi : i < en.length) (hj : i < sr.length) :
    (syncCodeBlocks en sr)[i]?
      = if inRegionAfter en i && inRegionAfter sr i then en[i]? else sr[i]? := by
  rw [inRegionAfter_eq_from, inRegionAfter_eq_from]
  exact syncCodeAux_get? en _ _ sr i hi hj

/-- Witness for C5's amended theorem at a concrete input: the interior line of
a source block is copied from the primary. -/
theorem C5_amended_copier_characterization_witness :
    (syncCodeBlocks ["----", "x", "----"] ["----", "y", "----"])[1]?
      = if inRegionAfter ["----", "x", "----"] 1
            && inRegionAfter ["----", "y", "----"] 1
        then (["----", "x", "----"] : List String)[1]?
        else (["----", "y", "----"] : List String)[1]? :=
  C5_amended_copier_characterization ["----", "x", "----"] ["----", "y", "----"] 1
    (by decide) (by decide)

/-! ## C7: completeness of the validator's reporting -/

/-- Recognizer for a block-content mismatch entry of block number `b`. -/
def isCM (b : Nat) : VError → Bool
  | .blockContentMismatch b' _ => b' = b
  | _ => false

theorem firstMismatchErr_shape : ∀ (el sl : List String) (bn j : Nat),
    firstMismatchErr bn j el sl = []
      ∨ ∃ j', firstMismatchErr bn j el sl = [VError.blockContentMismatch bn j'] := by
  intro el
  induction el with
  | nil => intro sl bn j; exact Or.inl rfl
  | cons a as ih =>
    intro sl bn j
    cases sl with
    | nil => exact Or.inl rfl
    | cons b bs =>
      have heq : firstMismatchErr bn j (a :: as) (b :: bs)
          = if a ≠ b then [VError.blockContentMismatch bn j]
            else firstMismatchErr bn (j + 1) as bs := rfl
      by_cases hab : a = b
      · rw [heq, if_neg (by simp [hab])]
        exact ih bs bn (j + 1)
      · rw [heq, if_pos hab]
        exact Or.inr ⟨j, rfl⟩

theorem firstMismatchErr_countP (el sl : List String) (bn j b : Nat) :
    (firstMismatchErr bn j el sl).countP (isCM b)
      ≤ if b = bn then 1 else 0 := by
  rcases firstMismatchErr_shape el sl bn j with h | ⟨j', h⟩ <;> rw [h]
  · simp only [List.countP_nil]; split <;> omega
  · by_cases hb : bn = b
    · subst hb; simp [List.countP_cons, isCM]
    · have hb' : ¬b = bn := fun hh => hb hh.symm
      simp [List.countP_cons, isCM, hb, hb']

theorem blockPairErrs_countP : ∀ (pairs : List (CodeBlock × CodeBlock))
    (en sr : List String) (n b : Nat),
    (blockPairErrs en sr n pairs).countP (isCM b) ≤ 1
      ∧ (b < n → (blockPairErrs en sr n pairs).countP (isCM b) = 0) := by
  intro pairs
  induction pairs with
  | nil => intro en sr n b; simp [blockPairErrs]
  | cons p rest ih =>
    intro en sr n b
    obtain ⟨eb, sb⟩ := p
    have hsplit : blockPairErrs en sr n ((eb, sb) :: rest)
        = (if eb.kind ≠ sb.kind then [VError.blockTypeMismatch n]
           else if (sliceBlock en eb).length ≠ (sliceBlock sr sb).length then
             [VError.blockLenMismatch n]
           else firstMismatchErr n 1 (sliceBlock en eb) (sliceBlock sr sb))
          ++ blockPairErrs en sr (n + 1) rest := rfl
    rw [hsplit, List.countP_append]
    have hrest := ih en sr (n + 1) b
    have hhead1 : (if eb.kind ≠ sb.kind then [VError.blockTypeMismatch n]
        else if (sliceBlock en eb).length ≠ (sliceBlock sr sb).length then
          [VError.blockLenMismatch n]
        else firstMismatchErr n 1 (sliceBlock en eb) (sliceBlock sr sb)).countP (isCM b)
        ≤ 1 := by
      split
      · simp [isCM]
      · split
        · simp [isCM]
        · have := firstMismatchErr_countP (sliceBlock en eb) (sliceBlock sr sb) n 1 b
          split at this <;> omega
    have hhead0 : ¬b = n → (if eb.kind ≠ sb.kind then [VError.blockTypeMismatch n]
        else if (sliceBlock en eb).length ≠ (sliceBlock sr sb).length then
          [VError.blockLenMismatch n]
        else firstMismatchErr n 1 (sliceBlock en eb) (sliceBlock sr sb)).countP (isCM b)
        = 0 := by
      intro hbn
      split
      · simp [isCM]
      · split
        · simp [isCM]
        · have := firstMismatchErr_countP (sliceBlock en eb) (sliceBlock sr sb) n 1 b
          rw [if_neg hbn] at this
          omega
    refine ⟨?_, ?_⟩
    · by_cases hb : b = n
      · have h0 : (blockPairErrs en sr (n + 1) rest).countP (isCM b) = 0 :=
          hrest.2 (by omega)
        omega
      · have h0 := hhead0 hb
        have h1 := hrest.1
        omega
    · intro hbn
      have h0 := hhead0 (by omega)
      have h2 : (blockPairErrs en sr (n + 1) rest).countP (isCM b) = 0 :=
        hrest.2 (by omega)
      omega

theorem headingErrs_countP_isCM : ∀ (en sr : List String) (i b : Nat),
    (headingErrs i en sr).countP (isCM b) = 0 := by
  intro en
  induction en with
  | nil => intro sr i b; rfl
  | cons e es ih =>
    intro sr i b
    cases sr with
    | nil => rfl
    | cons s ss =>
      show ((match matchHeading e, matchHeading s with
        | some he, some hs =>
          if he.marks ≠ hs.marks then [VError.headingMarksMismatch (i + 1)] else []
        | some _, none => [VError.headingOnlyEn (i + 1)]
        | none, some _ => [VError.headingOnlySr (i + 1)]
        | none, none => []) ++ headingErrs (i + 1) es ss).countP (isCM b) = 0
      rw [List.countP_append, ih ss (i + 1) b]
      cases matchHeading e <;> cases matchHeading s
      · simp
      · simp [isCM]
      · simp [isCM]
      · split <;> simp [isCM]

theorem mcErrs_countP_isCM (c1 c2 : String) (b : Nat) :
    (mcErrs c1 c2).countP (isCM b) = 0 := by
  rw [List.countP_eq_zero]
  intro a ha
  unfold mcErrs at ha
  simp only [List.mem_append] at ha
  rcases ha with (ha | ha) | ha <;> (split at ha <;> simp_all [isCM])

theorem attrErrs_countP_isCM (en sr : List String) (b : Nat) :
    (attrErrs en sr).countP (isCM b) = 0 := by
  rw [List.countP_eq_zero]
  intro a ha
  unfold attrErrs at ha
  simp only [List.mem_append] at ha
  rcases ha with ha | ha <;> (split at ha <;> simp_all [isCM])

theorem blockErrs_countP (en sr : List String) (b : Nat) :
    (blockErrs en sr).countP (isCM b) ≤ 1 := by
  unfold blockErrs
  split
  · simp [isCM, List.countP_cons]
  · exact (blockPairErrs_countP _ en sr 1 b).1

theorem headingErrs_mem : ∀ (en sr : List String) (i i0 : Nat)
    (e s : String) (he hs : LineParts),
    en[i]? = some e → sr[i]? = some s →
    matchHeading e = some he → matchHeading s = some hs →
    he.marks ≠ hs.marks →
    VError.headingMarksMismatch (i0 + i + 1) ∈ headingErrs i0 en sr := by
  intro en
  induction en with
  | nil => intro sr i i0 e s he hs h1; simp at h1
  | cons x xs ih =>
    intro sr i i0 e s he hs h1 h2 h3 h4 h5
    cases sr with
    | nil => simp at h2
    | cons y ys =>
      cases i with
      | zero =>
        have hx : x = e := by simpa using h1
        have hy : y = s := by simpa using h2
        show VError.headingMarksMismatch (i0 + 0 + 1)
          ∈ (match matchHeading x, matchHeading y with
            | some he', some hs' =>
              if he'.marks ≠ hs'.marks then [VError.headingMarksMismatch (i0 + 1)]
              else []
            | some _, none => [VError.headingOnlyEn (i0 + 1)]
            | none, some _ => [VError.headingOnlySr (i0 + 1)]
            | none, none => []) ++ headingErrs (i0 + 1) xs ys
        rw [hx, hy, h3, h4]
        simp only [Nat.add_zero]
        rw [if_pos h5]
        exact List.mem_append_left _ (by simp)
      | succ i =>
        have h1' : xs[i]? = some e := by simpa using h1
        have h2' : ys[i]? = some s := by simpa using h2
        have := ih ys i (i0 + 1) e s he hs h1' h2' h3 h4 h5
        show VError.headingMarksMismatch (i0 + (i + 1) + 1)
          ∈ (match matchHeading x, matchHeading y with
            | some he', some hs' =>
              if he'.marks ≠ hs'.marks then [VError.headingMarksMismatch (i0 + 1)]
              else []
            | some _, none => [VError.headingOnlyEn (i0 + 1)]
            | none, some _ => [VError.headingOnlySr (i0 + 1)]
            | none, none => []) ++ headingErrs (i0 + 1) xs ys
        refine List.mem_append_right _ ?_
        have harith : i0 + 1 + i + 1 = i0 + (i + 1) + 1 := by omega
        rwa [harith] at this

/-- C7 counterexample: the block pair below differs at two interior lines
(relative lines 2 and 3), but the validator's block-content loop `break`s at
the first difference, so the report carries exactly one entry for that block —
not one entry per differing line. -/
theorem C7_counterexample :
    validateTranslation ["----", "a", "b", "----"] ["----", "x", "y", "----"]
      = [VError.blockContentMismatch 1 2]
    ∧ (["----", "a", "b", "----"] : List String)[2]?
        ≠ (["----", "x", "y", "----"] : List String)[2]? := by
  constructor
  · decide
  · decide

/-- C7 (amended): the four checks run independently and all of their findings
are collected in one report — in particular every per-line heading mismatch is
reported — but within a matched pair of delimited regions the content
comparison stops at the first differing line, so each block pair contributes
at most one content-mismatch entry. -/
theorem C7_amended_validator_reporting :
    (∀ (en sr : List String) (b : Nat),
        (validateTranslation en sr).countP (isCM b) ≤ 1)
      ∧ (∀ (en sr : List String) (i : Nat) (e s : String) (he hs : LineParts),
          en[i]? = some e → sr[i]? = some s →
          matchHeading e = some he → matchHeading s = some hs →
          he.marks ≠ hs.marks →
          VError.headingMarksMismatch (i + 1) ∈ validateTranslation en sr) := by
  constructor
  · intro en sr b
    unfold validateTranslation
    rw [List.countP_append, List.countP_append, List.countP_append,
      headingErrs_countP_isCM, mcErrs_countP_isCM, attrErrs_countP_isCM]
    have := blockErrs_countP en sr b
    omega
  · intro en sr i e s he hs h1 h2 h3 h4 h5
    unfold validateTranslation
    have := headingErrs_mem en sr i 0 e s he hs h1 h2 h3 h4 h5
    rw [Nat.zero_add] at this
    exact List.mem_append_left _ (List.mem_append_left _
      (List.mem_append_left _ this))

/-- Witness for C7's amended theorem: a depth-2 vs depth-3 heading mismatch at
line 1 is reported. -/
theorem C7_amended_validator_reporting_witness :
    VError.headingMarksMismatch 1 ∈ validateTranslation ["== A"] ["=== A"] :=
  C7_amended_validator_reporting.2 ["== A"] ["=== A"] 0 "== A" "=== A"
    ⟨[], ['=', '='], [' '], ['A']⟩ ⟨[], ['=', '=', '='], [' '], ['A']⟩
    (by decide) (by decide) (by decide) (by decide) (by decide)

/-! ## C6: the per-line normalization -/

theorem takeWhile_append_all {α : Type} (p : α → Bool) :
    ∀ (l1 l2 : List α), (∀ c ∈ l1, p c = true) →
    (l1 ++ l2).takeWhile p = l1 ++ l2.takeWhile p := by
  intro l1
  induction l1 with
  | nil => intro l2 h; rfl
  | cons x xs ih =>
    intro l2 h
    have hx : p x = true := h x (by simp)
    simp [List.takeWhile_cons, hx, ih l2 (fun c hc => h c (by simp [hc]))]

theorem dropWhile_append_all {α : Type} (p : α → Bool) :
    ∀ (l1 l2 : List α), (∀ c ∈ l1, p c = true) →
    (l1 ++ l2).dropWhile p = l2.dropWhile p := by
  intro l1
  induction l1 with
  | nil => intro l2 h; rfl
  | cons x xs ih =>
    intro l2 h
    have hx : p x = true := h x (by simp)
    simp [List.dropWhile_cons, hx, ih l2 (fun c hc => h c (by simp [hc]))]

theorem takeWhile_cons_neg {α : Type} (p : α → Bool) (x : α) (xs : List α)
    (h : p x = false) : (x :: xs).takeWhile p = [] := by
  simp [List.takeWhile_cons, h]

theorem dropWhile_cons_neg {α : Type} (p : α → Bool) (x : α) (xs : List α)
    (h : p x = false) : (x :: xs).dropWhile p = x :: xs := by
  simp [List.dropWhile_cons, h]

/-- Marker characters are never whitespace (the class `[=*.+0-9#-]` and the
JS `\s` class are disjoint). -/
theorem isWs_false_of_marker (c : Char) (h : isMarkerChar c = true) :
    isWs c = false := by
  cases hws : isWs c with
  | false => rfl
  | true =>
    exfalso
    have hor : c = ' ' ∨ c = '\t' ∨ c = '\r' ∨ c = '\n' := by
      unfold isWs Char.isWhitespace at hws
      simp only [Bool.or_eq_true, decide_eq_true_eq] at hws
      tauto
    rcases hor with rfl | rfl | rfl | rfl <;> exact absurd h (by decide)

theorem isMarkerChar_false_of_ws (c : Char) (h : isWs c = true) :
    isMarkerChar c = false := by
  cases hm : isMarkerChar c with
  | false => rfl
  | true => rw [isWs_false_of_marker c hm] at h; exact absurd h (by decide)

/-- A line whose first character is a marker character is not an
attribute/comment/block-attribute line. -/
theorem isSkippedLine_false_of_marker (c : Char) (rest : List Char)
    (h : isMarkerChar c = true) : isSkippedLine (c :: rest) = false := by
  rw [isSkippedLine.eq_def]
  split
  next heq => rw [show c = ':' from by injection heq] at h; exact absurd h (by decide)
  next heq => rw [show c = '[' from by injection heq] at h; exact absurd h (by decide)
  next heq => rw [show c = '/' from by injection heq] at h; exact absurd h (by decide)
  next => rfl

/-- A line not starting with `=` fails the heading-prefix test. -/
theorem headingPrefixTest_false_of_head (c : Char) (rest : List Char)
    (h : decide (c = '=') = false) : headingPrefixTest (c :: rest) = false := by
  unfold headingPrefixTest
  rw [takeWhile_cons_neg (fun x => decide (x = '=')) c rest h]
  rfl

/-- C6 counterexample: a changed attribute line whose value contains letters
is discarded entirely by the normalization pass — its value text does not
contribute to the normalized set, although the value `Hello` is alphabetic. -/
theorem C6_counterexample :
    normalizeLines ["+:page-title: Hello"] = []
      ∧ "Hello".data.any isLetterChar = true := by
  constructor
  · decide
  · decide

/-- C6 (amended): lines that (after the diff mark and leading whitespace)
begin with `:` (attribute), `//` (comment) or `[` (block attribute) are
discarded entirely, value text included.  The leading diff mark (`-`/`+`) is
stripped first and does not otherwise affect the result.  A heading line is
stripped of its sigil run and following whitespace; any other changed line
starting with a list-marker-class character is stripped of its leading marker
run and following whitespace; a plain line keeps its whole text.  In each
case the remaining text is right-trimmed and kept iff it contains an
alphabetic character; and every line the pass keeps contains an alphabetic
character. -/
theorem C6_amended_normalization :
    (∀ l : String, isSkippedLine (trimStartL (stripDiffMark l.data)) = true →
        normLine l = none)
      ∧ (∀ (d c : Char) (cs : List Char), (d = '-' ∨ d = '+') →
          c ≠ '-' → c ≠ '+' →
          normLine ⟨d :: c :: cs⟩ = normLine ⟨c :: cs⟩)
      ∧ (∀ (eqs ws : List Char) (t : Char) (ts : List Char),
          eqs ≠ [] → (∀ c ∈ eqs, c = '=') →
          ws ≠ [] → (∀ c ∈ ws, isWs c = true) →
          isWs t = false → t ≠ '=' →
          normLine ⟨eqs ++ ws ++ (t :: ts)⟩
            = if (trimEndL (t :: ts)).any isLetterChar
              then some ⟨trimEndL (t :: ts)⟩ else none)
      ∧ (∀ (d m : Char) (ms ws : List Char) (t : Char) (ts : List Char),
          (d = '-' ∨ d = '+') → isMarkerChar m = true →
          (∀ c ∈ ms, isMarkerChar c = true) → (∀ c ∈ ws, isWs c = true) →
          isMarkerChar t = false → isWs t = false →
          headingPrefixTest (m :: (ms ++ (ws ++ (t :: ts)))) = false →
          normLine ⟨d :: m :: (ms ++ (ws ++ (t :: ts)))⟩
            = if (trimEndL (t :: ts)).any isLetterChar
              then some ⟨trimEndL (t :: ts)⟩ else none)
      ∧ (∀ (d c : Char) (rest : List Char),
          (d = '-' ∨ d = '+') → isMarkerChar c = false → isWs c = false →
          isSkippedLine (c :: rest) = false →
          normLine ⟨d :: c :: rest⟩
            = if (trimEndL (c :: rest)).any isLetterChar
              then some ⟨trimEndL (c :: rest)⟩ else none)
      ∧ (∀ (l t : String), normLine l = some t →
          t.data.any isLetterChar = true) := by
  refine ⟨?_, ?_, ?_, ?_, ?_, ?_⟩
  · intro l h
    simp [normLine, h]
  · intro d c cs hd hc1 hc2
    have h1 : stripDiffMark (d :: c :: cs) = c :: cs := by
      rcases hd with rfl | rfl <;> rfl
    have h2 : stripDiffMark (c :: cs) = c :: cs := by
      show (if c = '-' || c = '+' then cs else c :: cs) = c :: cs
      rw [if_neg (by simp [hc1, hc2])]
    simp only [normLine, h1, h2]
  · intro eqs ws t ts h1 h2 h3 h4 ht1 ht2
    obtain ⟨e, es, rfl⟩ : ∃ e es, eqs = e :: es := by
      cases eqs with
      | nil => exact absurd rfl h1
      | cons e es => exact ⟨e, es, rfl⟩
    obtain ⟨w, wr, rfl⟩ : ∃ w wr, ws = w :: wr := by
      cases ws with
      | nil => exact absurd rfl h3
      | cons w wr => exact ⟨w, wr, rfl⟩
    have he : e = '=' := h2 e (by simp)
    subst he
    have heqs : ∀ c ∈ ('=' :: es), (fun c => decide (c = '=')) c = true := by
      intro c hc
      simp [h2 c hc]
    have hw : isWs w = true := h4 w (by simp)
    have hwne : (fun c => decide (c = '=')) w = false := by
      have : w ≠ '=' := by
        intro hc
        rw [hc] at hw
        exact absurd hw (by decide)
      simp [this]
    have htne : (fun c => decide (c = '=')) t = false := by simp [ht2]
    have hws : ∀ c ∈ (w :: wr), isWs c = true := h4
    have hcs : trimStartL (stripDiffMark
        (String.data ⟨('=' :: es) ++ (w :: wr) ++ (t :: ts)⟩))
        = ('=' :: es) ++ (w :: wr) ++ (t :: ts) := rfl
    have hskip : isSkippedLine (('=' :: es) ++ (w :: wr) ++ (t :: ts)) = false := rfl
    have htake : (('=' :: es) ++ (w :: wr) ++ (t :: ts)).takeWhile
        (fun c => decide (c = '=')) = ('=' :: es) := by
      rw [List.append_assoc,
        takeWhile_append_all (fun c => decide (c = '=')) ('=' :: es)
          ((w :: wr) ++ (t :: ts)) heqs,
        show ((w :: wr) ++ (t :: ts)) = w :: (wr ++ (t :: ts)) from rfl,
        takeWhile_cons_neg (fun c => decide (c = '=')) w (wr ++ (t :: ts)) hwne,
        List.append_nil]
    have hdrop : (('=' :: es) ++ (w :: wr) ++ (t :: ts)).dropWhile
        (fun c => decide (c = '=')) = (w :: wr) ++ (t :: ts) := by
      rw [List.append_assoc,
        dropWhile_append_all (fun c => decide (c = '=')) ('=' :: es)
          ((w :: wr) ++ (t :: ts)) heqs,
        show ((w :: wr) ++ (t :: ts)) = w :: (wr ++ (t :: ts)) from rfl,
        dropWhile_cons_neg (fun c => decide (c = '=')) w (wr ++ (t :: ts)) hwne]
    have hht : headingPrefixTest (('=' :: es) ++ (w :: wr) ++ (t :: ts)) = true := by
      unfold headingPrefixTest
      rw [htake, hdrop]
      simp [hw]
    have hdrop2 : ((w :: wr) ++ (t :: ts)).dropWhile isWs = t :: ts := by
      rw [dropWhile_append_all isWs (w :: wr) (t :: ts) hws,
        dropWhile_cons_neg isWs t ts ht1]
    have hstr : strippedLine (('=' :: es) ++ (w :: wr) ++ (t :: ts))
        = trimEndL (t :: ts) := by
      simp only [strippedLine, hht, if_true, hdrop, hdrop2]
    simp only [normLine, hcs, hskip, Bool.false_eq_true, if_false, hstr]
  · intro d m ms ws t ts hd hm hms hws hmt hwt hht
    have hmws := isWs_false_of_marker m hm
    have hallm : ∀ c ∈ (m :: ms), isMarkerChar c = true := by
      intro c hc
      rcases List.mem_cons.mp hc with rfl | hc
      · exact hm
      · exact hms c hc
    have hskip := isSkippedLine_false_of_marker m (ms ++ (ws ++ (t :: ts))) hm
    have hdropM : ((m :: ms) ++ (ws ++ (t :: ts))).dropWhile isMarkerChar
        = ws ++ (t :: ts) := by
      rw [dropWhile_append_all isMarkerChar (m :: ms) (ws ++ (t :: ts)) hallm]
      cases ws with
      | nil => exact dropWhile_cons_neg isMarkerChar t ts hmt
      | cons w wr =>
        exact dropWhile_cons_neg isMarkerChar w (wr ++ (t :: ts))
          (isMarkerChar_false_of_ws w (hws w (by simp)))
    have hdropW : (ws ++ (t :: ts)).dropWhile isWs = t :: ts := by
      rw [dropWhile_append_all isWs ws (t :: ts) hws]
      exact dropWhile_cons_neg isWs t ts hwt
    have hstr : strippedLine (m :: (ms ++ (ws ++ (t :: ts)))) = trimEndL (t :: ts) := by
      unfold strippedLine
      simp only [hht, Bool.false_eq_true, if_false, hm, if_true]
      rw [show m :: (ms ++ (ws ++ (t :: ts)))
          = (m :: ms) ++ (ws ++ (t :: ts)) from rfl, hdropM, hdropW]
    have hfull : trimStartL (stripDiffMark
        (String.data ⟨d :: m :: (ms ++ (ws ++ (t :: ts)))⟩))
        = m :: (ms ++ (ws ++ (t :: ts))) := by
      show trimStartL (stripDiffMark (d :: m :: (ms ++ (ws ++ (t :: ts))))) = _
      have h1 : stripDiffMark (d :: m :: (ms ++ (ws ++ (t :: ts))))
          = m :: (ms ++ (ws ++ (t :: ts))) := by
        rcases hd with rfl | rfl <;> rfl
      rw [h1]
      exact dropWhile_cons_neg isWs m (ms ++ (ws ++ (t :: ts))) hmws
    simp only [normLine, hfull, hskip, Bool.false_eq_true, if_false, hstr]
  · intro d c rest hd hcm hcw hcskip
    have hceq : decide (c = '=') = false := by
      have hne : c ≠ '=' := by
        intro hc
        rw [hc] at hcm
        exact absurd hcm (by decide)
      simp [hne]
    have hht := headingPrefixTest_false_of_head c rest hceq
    have hstr : strippedLine (c :: rest) = trimEndL (c :: rest) := by
      unfold strippedLine
      simp only [hht, Bool.false_eq_true, if_false, hcm]
    have hfull : trimStartL (stripDiffMark (String.data ⟨d :: c :: rest⟩))
        = c :: rest := by
      show trimStartL (stripDiffMark (d :: c :: rest)) = _
      have h1 : stripDiffMark (d :: c :: rest) = c :: rest := by
        rcases hd with rfl | rfl <;> rfl
      rw [h1]
      exact dropWhile_cons_neg isWs c rest hcw
    simp only [normLine, hfull, hcskip, Bool.false_eq_true, if_false, hstr]
  · intro l t h
    simp only [normLine] at h
    split at h
    · exact absurd h (by simp)
    · split at h
      next hany =>
        have := Option.some.inj h
        rw [← this]
        exact hany
      · exact absurd h (by simp)

/-- Witness for C6's amended theorem: the heading line `"== Hi"`, the changed
list line `"+* Hi"`, and the changed plain line `"-Hi"` all normalize to
`"Hi"`. -/
theorem C6_amended_normalization_witness :
    (normLine ⟨['=', '='] ++ [' '] ++ ('H' :: ['i'])⟩
        = if (trimEndL ('H' :: ['i'])).any isLetterChar
          then some ⟨trimEndL ('H' :: ['i'])⟩ else none)
      ∧ (normLine ⟨'+' :: '*' :: ([] ++ ([' '] ++ ('H' :: ['i'])))⟩
          = if (trimEndL ('H' :: ['i'])).any isLetterChar
            then some ⟨trimEndL ('H' :: ['i'])⟩ else none)
      ∧ (normLine ⟨'-' :: 'H' :: ['i']⟩
          = if (trimEndL ('H' :: ['i'])).any isLetterChar
            then some ⟨trimEndL ('H' :: ['i'])⟩ else none) :=
  ⟨C6_amended_normalization.2.2.1 ['=', '='] [' '] 'H' ['i']
      (by decide) (by decide) (by decide) (by decide) (by decide) (by decide),
    C6_amended_normalization.2.2.2.1 '+' '*' [] [' '] 'H' ['i']
      (Or.inr rfl) (by decide) (by decide) (by decide) (by decide) (by decide)
      (by decide),
    C6_amended_normalization.2.2.2.2.1 '-' 'H' ['i']
      (Or.inl rfl) (by decide) (by decide) (by decide)⟩

/-! ## C1, C2, C4: the classifier's verdict logic -/

theorem trimEndL_eq_nil_iff (l : List Char) :
    trimEndL l = [] ↔ ∀ c ∈ l, isWs c = true := by
  unfold trimEndL
  rw [List.reverse_eq_nil_iff, List.dropWhile_eq_nil_iff]
  constructor
  · intro h c hc
    exact h c (List.mem_reverse.mpr hc)
  · intro h c hc
    exact h c (List.mem_reverse.mp hc)

theorem trimS_ne_empty_of_head (l : String) (c : Char) (rest : List Char)
    (hdata : l.data = c :: rest) (hc : isWs c = false) : trimS l ≠ "" := by
  intro h
  have hdat : trimEndL (trimStartL l.data) = [] := by
    have := congrArg String.data h
    simpa [trimS] using this
  rw [hdata, trimStartL, dropWhile_cons_neg isWs c rest hc] at hdat
  have := (trimEndL_eq_nil_iff (c :: rest)).mp hdat c (by simp)
  rw [hc] at this
  exact absurd this (by decide)

theorem startsWith_dash_head (l : String) (h : startsWithS l "-" = true) :
    ∃ rest, l.data = '-' :: rest := by
  unfold startsWithS at h
  cases hd : l.data with
  | nil => rw [hd] at h; exact absurd h (by decide)
  | cons c cs =>
    rw [hd] at h
    have : '-' = c := by
      have h' : ('-' == c && List.isPrefixOf [] cs) = true := h
      simp at h'
      exact h'
    exact ⟨cs, by rw [← this]⟩

theorem startsWith_plus_head (l : String) (h : startsWithS l "+" = true) :
    ∃ rest, l.data = '+' :: rest := by
  unfold startsWithS at h
  cases hd : l.data with
  | nil => rw [hd] at h; exact absurd h (by decide)
  | cons c cs =>
    rw [hd] at h
    have : '+' = c := by
      have h' : ('+' == c && List.isPrefixOf [] cs) = true := h
      simp at h'
      exact h'
    exact ⟨cs, by rw [← this]⟩

theorem exists_mem_of_filter_ne_nil {α : Type} (p : α → Bool) (l : List α)
    (h : l.filter p ≠ []) : ∃ x ∈ l, p x = true := by
  by_contra hc
  push_neg at hc
  exact h (List.filter_eq_nil_iff.mpr (by simpa using hc))

theorem all_blank_false_of_mem (dl : List String) (l : String) (hl : l ∈ dl)
    (hne : trimS l ≠ "") : dl.all (fun l => trimS l = "") = false := by
  by_contra hc
  have hall : dl.all (fun l => trimS l = "") = true := by
    cases h : dl.all (fun l => trimS l = "") with
    | true => rfl
    | false => exact absurd h hc
  have := List.all_eq_true.mp hall l hl
  exact hne (by simpa using this)

theorem notblank_of_changed (dl : List String)
    (h : extractRemoved dl ≠ [] ∨ extractAdded dl ≠ []) :
    dl.all (fun l => trimS l = "") = false := by
  rcases h with h | h
  · obtain ⟨l, hl, hp⟩ := exists_mem_of_filter_ne_nil keepRemoved dl h
    have hdash : startsWithS l "-" = true := by
      unfold keepRemoved at hp
      cases h1 : startsWithS l "-" with
      | true => rfl
      | false => rw [h1] at hp; simp at hp
    obtain ⟨rest, hdata⟩ := startsWith_dash_head l hdash
    exact all_blank_false_of_mem dl l hl
      (trimS_ne_empty_of_head l '-' rest hdata (by decide))
  · obtain ⟨l, hl, hp⟩ := exists_mem_of_filter_ne_nil keepAdded dl h
    have hplus : startsWithS l "+" = true := by
      unfold keepAdded at hp
      cases h1 : startsWithS l "+" with
      | true => rfl
      | false => rw [h1] at hp; simp at hp
    obtain ⟨rest, hdata⟩ := startsWith_plus_head l hplus
    exact all_blank_false_of_mem dl l hl
      (trimS_ne_empty_of_head l '+' rest hdata (by decide))

theorem analyzeStatus_eq_of_notblank (skip : Bool) (fl dl : List String)
    (hb : dl.all (fun l => trimS l = "") = false) :
    analyzeStatus skip fl dl
      = if codeOnlyCheck skip fl dl then Status.CODE_ONLY
        else if failSafeCond dl then Status.TEXT_AND_STRUCTURE
        else if normalizeLines (extractRemoved dl) = []
            ∧ normalizeLines (extractAdded dl) = [] then Status.NO_CHANGES
        else if joinNL (normalizeLines (extractRemoved dl))
            = joinNL (normalizeLines (extractAdded dl)) then Status.STRUCTURAL_ONLY
        else Status.TEXT_AND_STRUCTURE := by
  unfold analyzeStatus
  rw [if_neg (by simp [hb])]

/-- C2 (claim): whenever the diff has at least one added or removed line but
normalization strips both sides to nothing, the classifier never reports
NO_CHANGES, and — whenever the code-only short-circuit of step 1 does not
fire — it reports TEXT_AND_STRUCTURE. -/
theorem C2_failsafe_never_silent_skip (skip : Bool) (fl dl : List String)
    (hne : extractRemoved dl ≠ [] ∨ extractAdded dl ≠ [])
    (hr : normalizeLines (extractRemoved dl) = [])
    (ha : normalizeLines (extractAdded dl) = []) :
    analyzeStatus skip fl dl ≠ Status.NO_CHANGES
      ∧ (codeOnlyCheck skip fl dl = false →
          analyzeStatus skip fl dl = Status.TEXT_AND_STRUCTURE) := by
  have hb := notblank_of_changed dl hne
  rw [analyzeStatus_eq_of_notblank skip fl dl hb]
  by_cases hco : codeOnlyCheck skip fl dl = true
  · rw [if_pos hco]
    exact ⟨by decide, fun hc => absurd hco (by simp [hc])⟩
  · rw [if_neg hco, if_pos ⟨hne, hr, ha⟩]
    exact ⟨by decide, fun _ => rfl⟩

/-- Witness for C2: a diff adding the pure-structure line `***` (no letters on
either side after normalization) classifies as TEXT_AND_STRUCTURE. -/
theorem C2_failsafe_never_silent_skip_witness :
    analyzeStatus false [] ["@@ -1,0 +1 @@", "+***"] = Status.TEXT_AND_STRUCTURE :=
  (C2_failsafe_never_silent_skip false [] ["@@ -1,0 +1 @@", "+***"]
    (Or.inr (by decide)) (by decide) (by decide)).2 (by decide)

/-- The staged file of the spec's heading scenario. -/
def scenarioStaged : List String :=
  [":primary-lang: en", "", "== Getting Started", "", "Intro."]

/-- The staged diff of the spec's heading scenario: `=== Getting Started`
became `== Getting Started` and nothing else changed. -/
def scenarioHeadingDiff : List String :=
  ["--- a/docs-en/page.adoc", "+++ b/docs-en/page.adoc", "@@ -3 +3 @@",
   "-=== Getting Started", "+== Getting Started"]

/-- C1 (claim): when neither the code-only pre-check nor the step-3 fail-safe
fires, the classifier's final verdict is determined by the normalized sets:
both empty → NO_CHANGES; equal sorted-joined texts → STRUCTURAL_ONLY;
otherwise TEXT_AND_STRUCTURE.  In particular, the sigil-count-only heading
scenario classifies as STRUCTURAL_ONLY. -/
theorem C1_classifier_final_verdict :
    (∀ (skip : Bool) (fl dl : List String),
        codeOnlyCheck skip fl dl = false →
        ¬failSafeCond dl →
        ((normalizeLines (extractRemoved dl) = []
              ∧ normalizeLines (extractAdded dl) = [] →
            analyzeStatus skip fl dl = Status.NO_CHANGES)
          ∧ (¬(normalizeLines (extractRemoved dl) = []
                ∧ normalizeLines (extractAdded dl) = []) →
              (joinNL (normalizeLines (extractRemoved dl))
                    = joinNL (normalizeLines (extractAdded dl)) →
                  analyzeStatus skip fl dl = Status.STRUCTURAL_ONLY)
                ∧ (joinNL (normalizeLines (extractRemoved dl))
                    ≠ joinNL (normalizeLines (extractAdded dl)) →
                  analyzeStatus skip fl dl = Status.TEXT_AND_STRUCTURE))))
      ∧ analyzeStatus false scenarioStaged scenarioHeadingDiff
          = Status.STRUCTURAL_ONLY := by
  constructor
  · intro skip fl dl hco hfs
    constructor
    · intro hboth
      by_cases hb : dl.all (fun l => trimS l = "") = true
      · unfold analyzeStatus
        rw [if_pos hb]
      · have hb' : dl.all (fun l => trimS l = "") = false := by
          simpa using hb
        rw [analyzeStatus_eq_of_notblank skip fl dl hb',
          if_neg (by simp [hco]), if_neg hfs, if_pos hboth]
    · intro hne
      have hlists : extractRemoved dl ≠ [] ∨ extractAdded dl ≠ [] := by
        by_contra hc
        push_neg at hc
        exact hne ⟨by rw [hc.1]; rfl, by rw [hc.2]; rfl⟩
      have hb' := notblank_of_changed dl hlists
      rw [analyzeStatus_eq_of_notblank skip fl dl hb',
        if_neg (by simp [hco]), if_neg hfs, if_neg hne]
      constructor
      · intro hj
        rw [if_pos hj]
      · intro hj
        rw [if_neg hj]
  · decide

/-- Witness for C1's universal part: a hunk-header-only diff (no added or
removed lines) yields NO_CHANGES. -/
theorem C1_classifier_final_verdict_witness :
    analyzeStatus false [] ["@@ -1 +1 @@"] = Status.NO_CHANGES :=
  (C1_classifier_final_verdict.1 false [] ["@@ -1 +1 @@"]
    (by decide) (by decide)).1 (by decide)

theorem gclnAux_mem_nonblank : ∀ (dl : List String) (o n : Nat)
    (ch : ChangeRec), ch ∈ gclnAux o n dl →
    ∃ l ∈ dl, trimS l ≠ "" := by
  intro dl
  induction dl with
  | nil => intro o n ch h; simp [gclnAux] at h
  | cons l ls ih =>
    intro o n ch h
    unfold gclnAux at h
    rcases hp : parseHunk l with _ | ⟨ho, hn⟩ <;> rw [hp] at h
    · by_cases h1 : (startsWithS l "+++" || startsWithS l "---") = true
      · rw [if_pos h1] at h
        obtain ⟨l', hl', hne⟩ := ih _ _ ch h
        exact ⟨l', by simp [hl'], hne⟩
      · rw [if_neg h1] at h
        by_cases h2 : startsWithS l " " = true
        · rw [if_pos h2] at h
          obtain ⟨l', hl', hne⟩ := ih _ _ ch h
          exact ⟨l', by simp [hl'], hne⟩
        · rw [if_neg h2] at h
          by_cases h3 : startsWithS l "-" = true
          · obtain ⟨rest, hdata⟩ := startsWith_dash_head l h3
            exact ⟨l, by simp,
              trimS_ne_empty_of_head l '-' rest hdata (by decide)⟩
          · rw [if_neg h3] at h
            by_cases h4 : startsWithS l "+" = true
            · obtain ⟨rest, hdata⟩ := startsWith_plus_head l h4
              exact ⟨l, by simp,
                trimS_ne_empty_of_head l '+' rest hdata (by decide)⟩
            · rw [if_neg h4] at h
              obtain ⟨l', hl', hne⟩ := ih _ _ ch h
              exact ⟨l', by simp [hl'], hne⟩
    · obtain ⟨l', hl', hne⟩ := ih _ _ ch h
      exact ⟨l', by simp [hl'], hne⟩

/-- C4 (claim): with code-only detection enabled, if every changed record's
probed position is inside a delimited region of the staged document and at
least one changed record has a (truthy) position, the verdict is CODE_ONLY —
returned by the pre-check before the normalization pass is ever consulted.
An added record is probed at its post-change (new-file) line number. -/
theorem C4_code_only_short_circuit :
    (∀ (fl dl : List String),
        (∀ ch ∈ getChangedLineNumbers dl, ∃ n, effLine ch = some n
            ∧ isLineInCodeBlock fl n = true) →
        (∃ ch, ch ∈ getChangedLineNumbers dl ∧ effLine ch ≠ none) →
        analyzeStatus true fl dl = Status.CODE_ONLY)
      ∧ (∀ n : Nat, n ≠ 0 → effLine (ChangeRec.added n) = some n) := by
  constructor
  · intro fl dl hall ⟨ch, hch, _⟩
    obtain ⟨n, heff, hin⟩ := hall ch hch
    have hb : dl.all (fun l => trimS l = "") = false := by
      obtain ⟨l, hl, hne⟩ := gclnAux_mem_nonblank dl 0 0 ch hch
      exact all_blank_false_of_mem dl l hl hne
    have hany : (getChangedLineNumbers dl).any (recInCode fl) = true := by
      rw [List.any_eq_true]
      exact ⟨ch, hch, by simp [recInCode, heff, hin]⟩
    have hnon : (getChangedLineNumbers dl).any (recNonCode fl) = false := by
      rw [Bool.eq_false_iff]
      intro hcontra
      rw [List.any_eq_true] at hcontra
      obtain ⟨ch', hch', hnc⟩ := hcontra
      obtain ⟨n', heff', hin'⟩ := hall ch' hch'
      simp [recNonCode, heff', hin'] at hnc
    have hco : codeOnlyCheck true fl dl = true := by
      unfold codeOnlyCheck
      rw [hany, hnon]
      rfl
    rw [analyzeStatus_eq_of_notblank true fl dl hb, if_pos hco]
  · intro n hn
    simp [effLine, hn]

/-- Witness for C4: a one-line addition inside a `[source]` block of the
staged file is classified CODE_ONLY. -/
theorem C4_code_only_short_circuit_witness :
    analyzeStatus true ["[source,java]", "----", "int x = 1;", "----"]
      ["@@ -3,0 +3 @@", "+int x = 1;"] = Status.CODE_ONLY :=
  C4_code_only_short_circuit.1 ["[source,java]", "----", "int x = 1;", "----"]
    ["@@ -3,0 +3 @@", "+int x = 1;"] (by decide)
    ⟨ChangeRec.added 3, by decide, by decide⟩

end AntoraSync
